import Mathlib

/-!
Sequential and multi-process matrix product (`matrix_mul.c`).

A shallow embedding of `src/matrix_mul.c`.

* A C `int` value is an `Int`; every `+` and `*` on matrix entries is followed
  by `wrap32`, the reduction into `[-2^31, 2^31)` (two's-complement wraparound).
* An `int**` matrix is a `List (List Int)` (a list of row blocks), an `int*`
  block is a `List Int`.  Every load and store is bounds-checked and stops the
  run with `Stop.outOfBounds` when the index is outside the block.
* Dimensions, loop counters and indices are natural numbers (the claims are
  about `N, M, P >= 0`); index arithmetic `i*M + k` is exact.
* A call either returns (`Except.ok`) or stops the whole process
  (`Except.error`): `exit(code)`, an out-of-bounds access, or a division by
  zero.
* The operating system is an explicit input `Env`: whether `shmget`, `shmat`
  and each `fork` succeed, and the order in which the forked children run.
  A request for a segment of fewer than `SHMMIN = 1` bytes is always refused.
  Each child runs to completion in its turn; the segment carries a log of the
  stores made into it, from which the disjointness of the stores of different
  children is proved.  The parent reads the segment after all children are done
  (the `wait` loop).
* Memory allocation (`malloc`) always succeeds and a fresh block holds zeros;
  every cell is stored to before it is loaded.
-/

namespace MatrixMul

/-! ## Ways a call can stop the process -/

/-- Reasons for which a call does not return to its caller. -/
inductive Stop where
  | exit (code : Nat)
  | outOfBounds
  | divByZero
  deriving DecidableEq

/-- The value of `EXIT_SUCCESS` in `<stdlib.h>`. -/
def EXIT_SUCCESS : Nat := 0

/-- The value of `EXIT_FAILURE` in `<stdlib.h>`. -/
def EXIT_FAILURE : Nat := 1

/-! ## 32-bit `int` arithmetic -/

/-- Reduction of an integer into the range of a 32-bit two's-complement `int`. -/
def wrap32 (x : Int) : Int := (x + 2147483648) % 4294967296 - 2147483648

/-- The C expression `a + b` on `int`. -/
def int_add (a b : Int) : Int := wrap32 (a + b)

/-- The C expression `a * b` on `int`. -/
def int_mul (a b : Int) : Int := wrap32 (a * b)

/-! ## Loops and checked memory accesses -/

/-- Runs `body i` for `i = i0, i0+1, ...`, `n` times, threading the state. -/
def iterate {σ : Type} (body : Nat → σ → Except Stop σ) : Nat → Nat → σ → Except Stop σ
  | 0, _, s => .ok s
  | n + 1, i, s =>
    match body i s with
    | .ok s' => iterate body n (i + 1) s'
    | .error e => .error e

/-- The loop `for (int i = lo; i < hi; i++) body`. -/
def for_loop {σ : Type} (lo hi : Nat) (body : Nat → σ → Except Stop σ) (s : σ) : Except Stop σ :=
  iterate body (hi - lo) lo s

/-- The load `xs[i]` from an `int*` block. -/
def readAt (xs : List Int) (i : Nat) : Except Stop Int :=
  match xs[i]? with
  | some v => .ok v
  | none => .error .outOfBounds

/-- The store `xs[i] = v` into an `int*` block. -/
def writeAt (xs : List Int) (i : Nat) (v : Int) : Except Stop (List Int) :=
  if i < xs.length then .ok (xs.set i v) else .error .outOfBounds

/-- The load `A[i][j]` from an `int**` matrix. -/
def read2 (A : List (List Int)) (i j : Nat) : Except Stop Int :=
  match A[i]? with
  | some row => readAt row j
  | none => .error .outOfBounds

/-- The store `C[i][j] = v` into an `int**` matrix. -/
def write2 (C : List (List Int)) (i j : Nat) (v : Int) : Except Stop (List (List Int)) :=
  match C[i]? with
  | some row =>
    match writeAt row j v with
    | .ok row' => .ok (C.set i row')
    | .error e => .error e
  | none => .error .outOfBounds

/-- The store `C[i] = (int*)malloc(P * sizeof(int))`: row `i` becomes a fresh block of `P` cells. -/
def set_row (C : List (List Int)) (i P : Nat) : Except Stop (List (List Int)) :=
  if i < C.length then .ok (C.set i (List.replicate P 0)) else .error .outOfBounds

/-! ## `sequential_matrix_multiply` (lines 51-63) -/

/-- The function `sequential_matrix_multiply`. -/
def sequential_matrix_multiply (A B : List (List Int)) (N M P : Nat) :
    Except Stop (List (List Int)) :=
  for_loop 0 N (fun i C => do
    let C ← set_row C i P
    for_loop 0 P (fun j C => do
      let C ← write2 C i j 0
      for_loop 0 M (fun k C => do
        let c ← read2 C i j
        let a ← read2 A i k
        let b ← read2 B k j
        write2 C i j (int_add c (int_mul a b))) C) C) (List.replicate N [])

/-! ## `parallel_matrix_multiply` (lines 66-144) -/

/-- The shared memory segment `shared_C`, with a ghost log of every store made
into it: the pair `(pid, idx)` records that worker `pid` stored to `shared_C[idx]`. -/
structure Shm where
  cells : List Int
  writes : List (Nat × Nat)
  deriving DecidableEq

/-- The load `shared_C[idx]`. -/
def shm_read (shm : Shm) (idx : Nat) : Except Stop Int :=
  readAt shm.cells idx

/-- The store `shared_C[idx] = v` made by worker `pid`. -/
def shm_write (pid : Nat) (shm : Shm) (idx : Nat) (v : Int) : Except Stop Shm :=
  if idx < shm.cells.length then
    .ok { cells := shm.cells.set idx v, writes := shm.writes ++ [(pid, idx)] }
  else .error .outOfBounds

/-- The value `pid * (N / num_processes)` of `start_row` in worker `pid` (line 99). -/
def start_row (pid N W : Nat) : Nat := pid * (N / W)

/-- The value of `end_row` in worker `pid` after the adjustment of the last worker (lines 100-105). -/
def end_row (pid N W : Nat) : Nat :=
  if (pid : Int) = (W : Int) - 1 then N else (pid + 1) * (N / W)

/-- The body of the child process number `pid` (lines 99-115), up to its `exit`. -/
def worker (pid N M P W : Nat) (flat_A flat_B : List Int) (shared_C : Shm) : Except Stop Shm :=
  if W = 0 then .error .divByZero
  else
    for_loop (start_row pid N W) (end_row pid N W) (fun i shm =>
      for_loop 0 P (fun j shm => do
        let shm ← shm_write pid shm (i * P + j) 0
        for_loop 0 M (fun k shm => do
          let c ← shm_read shm (i * P + j)
          let a ← readAt flat_A (i * M + k)
          let b ← readAt flat_B (k * P + j)
          shm_write pid shm (i * P + j) (int_add c (int_mul a b))) shm) shm) shared_C

/-- What the operating system does during one call of `parallel_matrix_multiply`. -/
structure Env where
  /-- Whether the system has the resources for a new segment of that many bytes. -/
  shmget_ok : Nat → Bool
  /-- Whether `shmat` attaches it. -/
  shmat_ok : Bool
  /-- Whether the `fork()` of loop iteration `pid` creates a child. -/
  fork_ok : Nat → Bool
  /-- The order in which the children run (each to completion).  In a run in which
  every worker runs once this is a permutation of `0 .. W-1`. -/
  sched : List Nat

/-- The value of `sizeof(int)`. -/
def sizeof_int : Nat := 4

/-- The smallest size in bytes of a System V shared memory segment (the system limit
`SHMMIN`): `shmget` refuses to create a smaller one, with `EINVAL`. -/
def SHMMIN : Nat := 1

/-- Whether `shmget(IPC_PRIVATE, size, IPC_CREAT | 0666)` returns a segment: the size must
reach `SHMMIN` and the system must have the resources. -/
def shmget (env : Env) (size : Nat) : Bool :=
  decide (SHMMIN ≤ size) && env.shmget_ok size

/-- The worker indices whose child process exists, in the order in which they run. -/
def children (env : Env) (W : Nat) : List Nat :=
  env.sched.filter (fun pid => decide (pid < W) && env.fork_ok pid)

/-- The children run one after the other on the shared segment. -/
def run_children (N M P W : Nat) (flat_A flat_B : List Int) :
    List Nat → Shm → Except Stop Shm
  | [], shm => .ok shm
  | pid :: rest, shm =>
    match worker pid N M P W flat_A flat_B shm with
    | .ok shm' => run_children N M P W flat_A flat_B rest shm'
    | .error e => .error e

/-- The copy of an `int**` matrix with `R` rows and `Q` columns into a fresh
row-major block (lines 81-94). -/
def flatten (A : List (List Int)) (R Q : Nat) : Except Stop (List Int) :=
  for_loop 0 R (fun i flat =>
    for_loop 0 Q (fun j flat => do
      let a ← read2 A i j
      writeAt flat (i * Q + j) a) flat) (List.replicate (R * Q) 0)

/-- The copy of the shared segment into a fresh `int**` matrix (lines 129-135). -/
def reassemble (shared_C : Shm) (N P : Nat) : Except Stop (List (List Int)) :=
  for_loop 0 N (fun i C => do
    let C ← set_row C i P
    for_loop 0 P (fun j C => do
      let v ← shm_read shared_C (i * P + j)
      write2 C i j v) C) (List.replicate N [])

/-- Lines 68-126 of `parallel_matrix_multiply`: the segment is obtained (a fresh
System V segment is zero-filled), the inputs are flattened, the children are forked
and run, and the parent waits for them.  Returns the segment the parent then reads. -/
def parallel_phase (env : Env) (A B : List (List Int)) (N M P W : Nat) : Except Stop Shm :=
  if !shmget env (sizeof_int * N * P) then .error (.exit EXIT_FAILURE)
  else if !env.shmat_ok then .error (.exit EXIT_FAILURE)
  else do
    let shared_C : Shm := ⟨List.replicate (N * P) 0, []⟩
    let flat_A ← flatten A N M
    let flat_B ← flatten B M P
    run_children N M P W flat_A flat_B (children env W) shared_C

/-- The function `parallel_matrix_multiply`: the parallel phase followed by the
reassembly of the segment into an `int**` matrix. -/
def parallel_matrix_multiply (env : Env) (A B : List (List Int)) (N M P W : Nat) :
    Except Stop (List (List Int)) := do
  let shared_C ← parallel_phase env A B N M P W
  reassemble shared_C N P

/-! ## File input and output (lines 10-48) -/

/-- A matrix file as `fscanf` reads it: the two numbers of the header, then the
numbers that follow, in order. -/
structure MatrixFile where
  rows : Nat
  cols : Nat
  entries : List Int

/-- The function `read_matrix_from_file`; `none` stands for a file that `fopen`
cannot open.  A cell for which the file has no number left keeps the content of
the fresh block. -/
def read_matrix_from_file (file : Option MatrixFile) :
    Except Stop (List (List Int) × Nat × Nat) :=
  match file with
  | none => .error (.exit EXIT_FAILURE)
  | some f => do
    let matrix ← for_loop 0 f.rows (fun i matrix => do
      let matrix ← set_row matrix i f.cols
      for_loop 0 f.cols (fun j matrix =>
        write2 matrix i j (f.entries.getD (i * f.cols + j) 0)) matrix) (List.replicate f.rows [])
    pure (matrix, f.rows, f.cols)

/-- The function `write_matrix_to_file`; returns the header and the lines written.
The flag tells whether `fopen` can open the file for writing. -/
def write_matrix_to_file (can_open : Bool) (matrix : List (List Int)) (rows cols : Nat) :
    Except Stop (Nat × Nat × List (List Int)) :=
  if !can_open then .error (.exit EXIT_FAILURE)
  else do
    let lines ← for_loop 0 rows (fun i lines => do
      let line ← for_loop 0 cols (fun j line => do
        let v ← read2 matrix i j
        pure (line ++ [v])) []
      pure (lines ++ [line])) []
    pure (rows, cols, lines)

/-! ## `main` (lines 153-217) -/

/-- What a run of `main` does that can be observed: the calls of the two engines, the
messages `main` prints, and the file it writes. -/
inductive Event where
  | usage_message
  | dimension_error
  | called_sequential
  | called_parallel
  | mismatch_error
  | wrote_C_txt (rows cols : Nat) (lines : List (List Int))
  | timing_report
  deriving DecidableEq

/-- How a run ends and what it did before. -/
structure Outcome where
  stop : Stop
  trace : List Event
  deriving DecidableEq

/-- The files and the operating system `main` runs against. -/
structure World where
  /-- The first input file, `none` if it cannot be opened. -/
  file_A : Option MatrixFile
  /-- The second input file, `none` if it cannot be opened. -/
  file_B : Option MatrixFile
  /-- The operating system during `parallel_matrix_multiply`. -/
  os : Env
  /-- Whether `C.txt` can be opened for writing. -/
  output_ok : Bool

/-- The comparison loops of `main` (lines 184-191); the `return EXIT_FAILURE` inside
them ends the process with that status. -/
def compare_results (C_seq C_par : List (List Int)) (N P : Nat) : Except Stop Unit :=
  for_loop 0 N (fun i u =>
    for_loop 0 P (fun j u => do
      let x ← read2 C_seq i j
      let y ← read2 C_par i j
      if x ≠ y then .error (.exit EXIT_FAILURE) else pure u) u) ()

/-- Lines 183-216 of `main`: comparison of the two results, then the output file,
the report and the normal return. -/
def main_after_multiply (output_ok : Bool) (C_seq C_par : List (List Int)) (N P : Nat) :
    Outcome :=
  match compare_results C_seq C_par N P with
  | .error (.exit code) => ⟨.exit code, [.mismatch_error]⟩
  | .error e => ⟨e, []⟩
  | .ok _ =>
    match write_matrix_to_file output_ok C_seq N P with
    | .error e => ⟨e, []⟩
    | .ok (rows, cols, lines) =>
      ⟨.exit EXIT_SUCCESS, [.wrote_C_txt rows cols lines, .timing_report]⟩

/-- The function `main`, given `argc` and the value `atoi(argv[3])`.  A negative
worker count runs no loop iteration, like 0. -/
def main (argc : Nat) (num_processes : Int) (w : World) : Outcome :=
  if argc ≠ 4 then ⟨.exit EXIT_FAILURE, [.usage_message]⟩
  else
    match read_matrix_from_file w.file_A with
    | .error e => ⟨e, []⟩
    | .ok (A, N, M) =>
      match read_matrix_from_file w.file_B with
      | .error e => ⟨e, []⟩
      | .ok (B, M2, P) =>
        if M ≠ M2 then ⟨.exit EXIT_FAILURE, [.dimension_error]⟩
        else
          match sequential_matrix_multiply A B N M P with
          | .error e => ⟨e, [.called_sequential]⟩
          | .ok C_seq =>
            match parallel_matrix_multiply w.os A B N M P num_processes.toNat with
            | .error e => ⟨e, [.called_sequential, .called_parallel]⟩
            | .ok C_par =>
              let rest := main_after_multiply w.output_ok C_seq C_par N P
              ⟨rest.stop, [.called_sequential, .called_parallel] ++ rest.trace⟩

/-! ## Specification-side definitions -/

/-- The entry `A[i][j]` read without checks (0 outside the matrix). -/
def entry (A : List (List Int)) (i j : Nat) : Int := (A.getD i []).getD j 0

/-- The mathematical (unbounded) sum of the products `A[i][k] * B[k][j]` for `k < M`. -/
def exact_dot (A B : List (List Int)) (M i j : Nat) : Int :=
  ∑ k in Finset.range M, entry A i k * entry B k j

/-- The value the accumulator `C[i][j]` holds after `k` rounds of `+=` in 32-bit arithmetic. -/
def dot_upto (A B : List (List Int)) (i j : Nat) : Nat → Int
  | 0 => 0
  | k + 1 => int_add (dot_upto A B i j k) (int_mul (entry A i k) (entry B k j))

/-- The matrix with `N` rows and `P` columns whose cell `(i, j)` is `f i j`. -/
def tabulate (N P : Nat) (f : Nat → Nat → Int) : List (List Int) :=
  (List.range N).map (fun i => (List.range P).map (f i))

/-- An `int**` matrix has exactly `R` rows of exactly `Q` cells each. -/
def WellFormed (A : List (List Int)) (R Q : Nat) : Prop :=
  A.length = R ∧ ∀ row ∈ A, row.length = Q

instance (A : List (List Int)) (R Q : Nat) : Decidable (WellFormed A R Q) :=
  inferInstanceAs (Decidable (A.length = R ∧ ∀ row ∈ A, row.length = Q))

@[simp] theorem ok_bind {α β : Type} (a : α) (f : α → Except Stop β) :
    (Except.ok a >>= f) = f a := rfl

theorem wrap32_add_wrap32 (s x : Int) : wrap32 (wrap32 s + wrap32 x) = wrap32 (s + x) := by
  unfold wrap32; omega

theorem wrap32_zero : wrap32 0 = 0 := by decide

theorem dot_upto_eq (A B : List (List Int)) (i j k : Nat) :
    dot_upto A B i j k = wrap32 (exact_dot A B k i j) := by
  induction k with
  | zero => simp [dot_upto, exact_dot, wrap32_zero]
  | succ k ih =>
    simp only [dot_upto, int_add, int_mul, ih, exact_dot, Finset.sum_range_succ]
    exact wrap32_add_wrap32 _ _

theorem iterate_inv {σ : Type} (Inv : Nat → σ → Prop) (body : Nat → σ → Except Stop σ)
    (hi : Nat) :
    ∀ (n i : Nat) (s : σ), i + n = hi → Inv i s →
      (∀ t u, i ≤ t → t < hi → Inv t u → ∃ u', body t u = .ok u' ∧ Inv (t + 1) u') →
      ∃ s', iterate body n i s = .ok s' ∧ Inv hi s' := by
  intro n
  induction n with
  | zero =>
    intro i s h h0 _
    have : i = hi := by omega
    subst this
    exact ⟨s, rfl, h0⟩
  | succ n ih =>
    intro i s h h0 hstep
    obtain ⟨u', hb, hu⟩ := hstep i s (Nat.le_refl _) (by omega) h0
    obtain ⟨s', hs, hI⟩ := ih (i + 1) u' (by omega) hu
      (fun t u ht1 ht2 hI => hstep t u (by omega) ht2 hI)
    exact ⟨s', by simp only [iterate, hb, hs], hI⟩

/-- Invariant rule for `for_loop`: an invariant that holds on entry and is
re-established by every iteration holds on exit, and the loop returns. -/
theorem for_loop_inv {σ : Type} (Inv : Nat → σ → Prop) (lo hi : Nat)
    (body : Nat → σ → Except Stop σ) (s : σ) (hle : lo ≤ hi) (h0 : Inv lo s)
    (hstep : ∀ t u, lo ≤ t → t < hi → Inv t u → ∃ u', body t u = .ok u' ∧ Inv (t + 1) u') :
    ∃ s', for_loop lo hi body s = .ok s' ∧ Inv hi s' :=
  iterate_inv Inv body hi (hi - lo) lo s (by omega) h0 hstep

theorem for_loop_empty {σ : Type} (lo hi : Nat) (body : Nat → σ → Except Stop σ) (s : σ)
    (h : hi ≤ lo) : for_loop lo hi body s = .ok s := by
  unfold for_loop
  have : hi - lo = 0 := by omega
  rw [this]; rfl

theorem entry_of_get {A : List (List Int)} {i j : Nat} {row : List Int} {v : Int}
    (h1 : A[i]? = some row) (h2 : row[j]? = some v) : entry A i j = v := by
  simp [entry, List.getD, h1, h2]

theorem read2_ok {A : List (List Int)} {R Q : Nat} (hA : WellFormed A R Q) {i j : Nat}
    (hi : i < R) (hj : j < Q) : read2 A i j = .ok (entry A i j) := by
  obtain ⟨hlen, hrows⟩ := hA
  have hi' : i < A.length := by omega
  have h1 : A[i]? = some A[i] := List.getElem?_eq_getElem hi'
  have hr : (A[i]).length = Q := hrows _ (List.getElem_mem hi')
  have hj' : j < (A[i]).length := by omega
  have h2 : (A[i])[j]? = some (A[i])[j] := List.getElem?_eq_getElem hj'
  simp only [read2, h1, readAt, h2, entry_of_get h1 h2]

theorem write2_ok {C : List (List Int)} {i j : Nat} {r : List Int} (v : Int)
    (h1 : C[i]? = some r) (hj : j < r.length) :
    write2 C i j v = .ok (C.set i (r.set j v)) := by
  simp [write2, h1, writeAt, hj]

theorem read2_of_get {C : List (List Int)} {i j : Nat} {r : List Int} {v : Int}
    (h1 : C[i]? = some r) (h2 : r[j]? = some v) : read2 C i j = .ok v := by
  simp [read2, h1, readAt, h2]

theorem row_eq_of_get {r : List Int} {P : Nat} {g : Nat → Int} (hlen : r.length = P)
    (h : ∀ j, j < P → r[j]? = some (g j)) : r = (List.range P).map g := by
  apply List.ext_getElem?
  intro n
  by_cases hn : n < P
  · rw [h n hn]; simp [hn]
  · have h1 : r[n]? = none := List.getElem?_eq_none (by omega)
    have h2 : ((List.range P).map g)[n]? = none := List.getElem?_eq_none (by simp; omega)
    rw [h1, h2]

theorem matrix_eq_of_get {C : List (List Int)} {N P : Nat} {f : Nat → Nat → Int}
    (hlen : C.length = N)
    (h : ∀ i, i < N → C[i]? = some ((List.range P).map (f i))) : C = tabulate N P f := by
  apply List.ext_getElem?
  intro n
  by_cases hn : n < N
  · rw [h n hn]; simp [tabulate, hn]
  · have h1 : C[n]? = none := List.getElem?_eq_none (by omega)
    have h2 : (tabulate N P f)[n]? = none :=
      List.getElem?_eq_none (by simp [tabulate]; omega)
    rw [h1, h2]

/-- A row-by-row, cell-by-cell fill of a fresh `int**` matrix in which the
code for cell `(i, j)` leaves the value `f i j` there produces `tabulate N P f`. -/
theorem fill_spec (N P : Nat) (f : Nat → Nat → Int)
    (cell : Nat → Nat → List (List Int) → Except Stop (List (List Int)))
    (hcell : ∀ i j C r, i < N → j < P → C[i]? = some r → r.length = P →
      cell i j C = .ok (C.set i (r.set j (f i j)))) :
    for_loop 0 N (fun i C => set_row C i P >>= fun C => for_loop 0 P (cell i) C)
      (List.replicate N []) = .ok (tabulate N P f) := by
  obtain ⟨C, hC, hlen, hrows⟩ := for_loop_inv
    (fun i C => C.length = N ∧ ∀ i', i' < i → C[i']? = some ((List.range P).map (f i')))
    0 N (fun i C => set_row C i P >>= fun C => for_loop 0 P (cell i) C)
    (List.replicate N []) (Nat.zero_le _) ⟨by simp, by intro i' h; omega⟩
    (by
      intro i C _ hi ⟨hlen, hrows⟩
      have hset : set_row C i P = .ok (C.set i (List.replicate P 0)) := by
        simp [set_row, hlen, hi]
      obtain ⟨C', hC', hlen', hrows', r, hr, hrl, hrj⟩ := for_loop_inv
        (fun j C' => C'.length = N ∧
          (∀ i', i' < i → C'[i']? = some ((List.range P).map (f i'))) ∧
          ∃ r, C'[i]? = some r ∧ r.length = P ∧ ∀ j', j' < j → r[j']? = some (f i j'))
        0 P (cell i) (C.set i (List.replicate P 0)) (Nat.zero_le _)
        ⟨by simp [hlen], by
            intro i' h
            rw [List.getElem?_set_ne (by omega)]
            exact hrows i' h,
          List.replicate P 0, by simp [List.getElem?_set_self, hlen, hi], by simp,
          by intro j' h; omega⟩
        (by
          intro j C' _ hj ⟨hlen', hrows', r, hr, hrl, hrj⟩
          refine ⟨_, hcell i j C' r hi hj hr hrl, by simp [hlen'], ?_, r.set j (f i j), ?_, by simp [hrl], ?_⟩
          · intro i' h
            rw [List.getElem?_set_ne (by omega)]
            exact hrows' i' h
          · simp [List.getElem?_set_self, hlen', hi]
          · intro j' h
            by_cases hjj : j' = j
            · subst hjj; simp [List.getElem?_set_self, hrl, hj]
            · rw [List.getElem?_set_ne (by omega)]
              exact hrj j' (by omega))
      refine ⟨C', by show (set_row C i P >>= fun C => for_loop 0 P (cell i) C) = _; rw [hset]; exact hC', hlen', ?_⟩
      intro i' h
      by_cases hii : i' = i
      · subst hii
        rw [hr, row_eq_of_get hrl hrj]
      · exact hrows' i' (by omega))
  rw [hC, matrix_eq_of_get hlen hrows]

theorem lt_of_get {α : Type} {xs : List α} {i : Nat} {x : α} (h : xs[i]? = some x) :
    i < xs.length := by
  by_contra hn
  rw [List.getElem?_eq_none (by omega)] at h
  cases h

/-- The code of one cell of `sequential_matrix_multiply` (lines 56-59) stores the 32-bit
accumulated dot product into `C[i][j]` and changes nothing else. -/
theorem sequential_cell (A B : List (List Int)) (N M P : Nat)
    (hA : WellFormed A N M) (hB : WellFormed B M P)
    (i j : Nat) (C : List (List Int)) (r : List Int)
    (hi : i < N) (hj : j < P) (hr : C[i]? = some r) (hrl : r.length = P) :
    (write2 C i j 0 >>= fun C => for_loop 0 M (fun k C =>
        read2 C i j >>= fun c => read2 A i k >>= fun a => read2 B k j >>= fun b =>
          write2 C i j (int_add c (int_mul a b))) C)
      = .ok (C.set i (r.set j (dot_upto A B i j M))) := by
  have hiC : i < C.length := lt_of_get hr
  rw [write2_ok 0 hr (by omega), ok_bind]
  obtain ⟨C', hC', hinv⟩ := for_loop_inv
    (fun k C' => C' = C.set i (r.set j (dot_upto A B i j k))) 0 M
    (fun k C => read2 C i j >>= fun c => read2 A i k >>= fun a => read2 B k j >>= fun b =>
          write2 C i j (int_add c (int_mul a b)))
    (C.set i (r.set j 0)) (Nat.zero_le _) rfl
    (by
      intro k C' _ hk hC'
      subst hC'
      have h1 : (C.set i (r.set j (dot_upto A B i j k)))[i]?
          = some (r.set j (dot_upto A B i j k)) := by
        simp [List.getElem?_set_self, hiC]
      have h2 : (r.set j (dot_upto A B i j k))[j]? = some (dot_upto A B i j k) := by
        simp [List.getElem?_set_self, hrl, hj]
      refine ⟨_, ?_, rfl⟩
      show (read2 _ i j >>= fun c => read2 A i k >>= fun a => read2 B k j >>= fun b =>
          write2 _ i j (int_add c (int_mul a b))) = _
      rw [read2_of_get h1 h2, ok_bind, read2_ok hA hi hk, ok_bind, read2_ok hB hk hj, ok_bind,
        write2_ok _ h1 (by simp [hrl, hj])]
      simp [dot_upto])
  rw [hC', hinv]

/-- What `sequential_matrix_multiply` returns on well-formed inputs. -/
theorem sequential_spec (A B : List (List Int)) (N M P : Nat)
    (hA : WellFormed A N M) (hB : WellFormed B M P) :
    sequential_matrix_multiply A B N M P
      = .ok (tabulate N P (fun i j => dot_upto A B i j M)) :=
  fill_spec N P (fun i j => dot_upto A B i j M) _
    (fun i j C r hi hj hr hrl => sequential_cell A B N M P hA hB i j C r hi hj hr hrl)

/-! ## Row-major indices -/

theorem chunk_mul_le (N W : Nat) : W * (N / W) ≤ N := Nat.mul_div_le N W

theorem end_row_last (N W : Nat) (hW : 0 < W) : end_row (W - 1) N W = N := by
  unfold end_row
  rw [if_pos (by omega)]

theorem end_row_inner (pid N W : Nat) (h : pid + 1 < W) :
    end_row pid N W = (pid + 1) * (N / W) := by
  unfold end_row
  rw [if_neg (by omega)]

theorem end_row_le (pid N W : Nat) (h : pid < W) : end_row pid N W ≤ N := by
  unfold end_row
  split
  · exact Nat.le_refl _
  · have h1 : (pid + 1) * (N / W) ≤ W * (N / W) := Nat.mul_le_mul_right _ h
    have h2 := chunk_mul_le N W
    omega

theorem start_row_le_end_row (pid N W : Nat) (h : pid < W) :
    start_row pid N W ≤ end_row pid N W := by
  unfold start_row end_row
  split
  · have h1 : pid * (N / W) ≤ W * (N / W) := Nat.mul_le_mul_right _ (Nat.le_of_lt h)
    have h2 := chunk_mul_le N W
    omega
  · exact Nat.mul_le_mul_right _ (Nat.le_succ _)

theorem end_row_eq_start_row_succ (pid N W : Nat) (h : pid + 1 < W) :
    end_row pid N W = start_row (pid + 1) N W := by
  rw [end_row_inner pid N W h]; rfl

/-- Two workers whose ranges contain the same row are the same worker. -/
theorem row_owner_unique (N W p q i : Nat) (hp : p < W) (hq : q < W)
    (hp1 : start_row p N W ≤ i) (hp2 : i < end_row p N W)
    (hq1 : start_row q N W ≤ i) (hq2 : i < end_row q N W) : p = q := by
  have key : ∀ a b : Nat, a < b → b < W → i < end_row a N W → start_row b N W ≤ i → False := by
    intro a b hab hb h1 h2
    rw [end_row_inner a N W (by omega)] at h1
    have h3 : (a + 1) * (N / W) ≤ b * (N / W) := Nat.mul_le_mul_right _ hab
    unfold start_row at h2
    omega
  rcases Nat.lt_trichotomy p q with h | h | h
  · exact (key p q h hq hp2 hq1).elim
  · exact h
  · exact (key q p h hp hq2 hp1).elim

/-- Every row below `N` lies in the range of some worker. -/
theorem row_has_owner (N W i : Nat) (hW : 0 < W) (hi : i < N) :
    ∃ pid, pid < W ∧ start_row pid N W ≤ i ∧ i < end_row pid N W := by
  by_cases hlast : (W - 1) * (N / W) ≤ i
  · exact ⟨W - 1, by omega, hlast, by rw [end_row_last N W hW]; exact hi⟩
  · have hq : 0 < N / W := by
      rcases Nat.eq_zero_or_pos (N / W) with h | h
      · rw [h] at hlast; simp at hlast
      · exact h
    have h1 : i / (N / W) < W - 1 := by
      rw [Nat.div_lt_iff_lt_mul hq]; omega
    refine ⟨i / (N / W), by omega, Nat.div_mul_le_self i (N / W), ?_⟩
    rw [end_row_inner _ N W (by omega)]
    exact (Nat.div_lt_iff_lt_mul hq).1 (Nat.lt_succ_self _)

/-! ## One worker, then all of them -/

theorem get_of_wf {A : List (List Int)} {R Q : Nat} (hA : WellFormed A R Q) {i j : Nat}
    (hi : i < R) (hj : j < Q) :
    ∃ row, A[i]? = some row ∧ row.length = Q ∧ row[j]? = some (entry A i j) := by
  obtain ⟨hlen, hrows⟩ := hA
  have hi' : i < A.length := by omega
  have h1 : A[i]? = some A[i] := List.getElem?_eq_getElem hi'
  have hr : (A[i]).length = Q := hrows _ (List.getElem_mem hi')
  have hj' : j < (A[i]).length := by omega
  have h2 : (A[i])[j]? = some (A[i])[j] := List.getElem?_eq_getElem hj'
  exact ⟨A[i], h1, hr, by rw [h2, entry_of_get h1 h2]⟩

theorem tabulate_wf (N P : Nat) (f : Nat → Nat → Int) : WellFormed (tabulate N P f) N P := by
  refine ⟨by simp [tabulate], ?_⟩
  intro row hrow
  simp only [tabulate, List.mem_map] at hrow
  obtain ⟨i, _, rfl⟩ := hrow
  simp

theorem entry_tabulate (N P : Nat) (f : Nat → Nat → Int) {i j : Nat} (hi : i < N) (hj : j < P) :
    entry (tabulate N P f) i j = f i j := by
  have h1 : (tabulate N P f)[i]? = some ((List.range P).map (f i)) := by
    simp [tabulate, hi]
  have h2 : ((List.range P).map (f i))[j]? = some (f i j) := by
    simp [hj]
  exact entry_of_get h1 h2

theorem tabulate_entry {C : List (List Int)} {N P : Nat} (hC : WellFormed C N P) :
    tabulate N P (entry C) = C := by
  symm
  apply matrix_eq_of_get hC.1
  intro i hi
  by_cases hP : 0 < P
  · obtain ⟨row, h1, hl, _⟩ := get_of_wf hC hi hP
    rw [h1, row_eq_of_get hl (g := entry C i)]
    intro j hj
    obtain ⟨row', h1', _, h2'⟩ := get_of_wf hC hi hj
    rw [h1] at h1'
    cases h1'
    exact h2'
  · have hP0 : P = 0 := by omega
    subst hP0
    have hi' : i < C.length := by rw [hC.1]; exact hi
    have h1 : C[i]? = some C[i] := List.getElem?_eq_getElem hi'
    have hr : (C[i]).length = 0 := hC.2 _ (List.getElem_mem hi')
    rw [h1, List.length_eq_zero.1 hr]
    simp

/-! ## File input and output -/

theorem read_matrix_spec (f : MatrixFile) :
    read_matrix_from_file (some f)
      = .ok (tabulate f.rows f.cols (fun i j => f.entries.getD (i * f.cols + j) 0),
          f.rows, f.cols) := by
  have h := fill_spec f.rows f.cols (fun i j => f.entries.getD (i * f.cols + j) 0)
    (fun i j matrix => write2 matrix i j (f.entries.getD (i * f.cols + j) 0))
    (fun i j C r _ hj hr hrl => write2_ok _ hr (by omega))
  show ((for_loop 0 f.rows (fun i matrix => set_row matrix i f.cols >>= fun matrix =>
      for_loop 0 f.cols (fun j matrix =>
        write2 matrix i j (f.entries.getD (i * f.cols + j) 0)) matrix) (List.replicate f.rows []))
      >>= fun matrix => Except.ok (matrix, f.rows, f.cols)) = _
  rw [h, ok_bind]

theorem range_map_succ {α : Type} (g : Nat → α) (n : Nat) :
    (List.range (n + 1)).map g = (List.range n).map g ++ [g n] := by
  rw [List.range_succ, List.map_append]; rfl

theorem write_matrix_spec (matrix : List (List Int)) (rows cols : Nat)
    (hC : WellFormed matrix rows cols) :
    write_matrix_to_file true matrix rows cols = .ok (rows, cols, matrix) := by
  obtain ⟨lines, hl, hinv⟩ := for_loop_inv
    (fun i (lines : List (List Int)) =>
      lines = (List.range i).map (fun i' => (List.range cols).map (entry matrix i')))
    0 rows (fun i lines => (for_loop 0 cols (fun j line =>
        read2 matrix i j >>= fun v => Except.ok (line ++ [v])) []) >>= fun line =>
      Except.ok (lines ++ [line])) [] (Nat.zero_le _) rfl
    (by
      intro i lines _ hi hlines
      obtain ⟨line, hline, hinv⟩ := for_loop_inv
        (fun j (line : List Int) => line = (List.range j).map (entry matrix i))
        0 cols (fun j line => read2 matrix i j >>= fun v => Except.ok (line ++ [v])) []
        (Nat.zero_le _) rfl
        (by
          intro j line _ hj hline
          refine ⟨line ++ [entry matrix i j], ?_, ?_⟩
          · show (read2 matrix i j >>= fun v => Except.ok (line ++ [v])) = _
            rw [read2_ok hC hi hj, ok_bind]
          · beta_reduce; rw [hline, range_map_succ])
      refine ⟨lines ++ [line], ?_, ?_⟩
      · show ((for_loop 0 cols (fun j line =>
          read2 matrix i j >>= fun v => Except.ok (line ++ [v])) []) >>= fun line =>
          Except.ok (lines ++ [line])) = _
        rw [hline, ok_bind]
      · beta_reduce; rw [hlines, hinv, range_map_succ])
  have hfinal : lines = matrix := by
    rw [hinv]; exact tabulate_entry hC
  show ((for_loop 0 rows (fun i lines => (for_loop 0 cols (fun j line =>
        read2 matrix i j >>= fun v => Except.ok (line ++ [v])) []) >>= fun line =>
      Except.ok (lines ++ [line])) []) >>= fun lines => Except.ok (rows, cols, lines)) = _
  rw [hl, ok_bind, hfinal]

/-! ## The comparison loops -/

theorem iterate_unit (body : Nat → Unit → Except Stop Unit) (e0 : Stop) (hi : Nat) :
    ∀ (n i : Nat), i + n = hi →
      (∀ t, i ≤ t → t < hi → body t () = .ok () ∨ body t () = .error e0) →
      (iterate body n i () = .ok () ∧ ∀ t, i ≤ t → t < hi → body t () = .ok ()) ∨
      (iterate body n i () = .error e0 ∧ ∃ t, i ≤ t ∧ t < hi ∧ body t () = .error e0) := by
  intro n
  induction n with
  | zero =>
    intro i h _
    exact Or.inl ⟨rfl, fun t h1 h2 => by omega⟩
  | succ n ih =>
    intro i h hb
    rcases hb i (Nat.le_refl _) (by omega) with h0 | h0
    · rcases ih (i + 1) (by omega) (fun t h1 h2 => hb t (by omega) h2) with ⟨h1, h2⟩ | ⟨h1, t, h2⟩
      · refine Or.inl ⟨by simp only [iterate, h0, h1], ?_⟩
        intro t ht1 ht2
        by_cases hti : t = i
        · subst hti; exact h0
        · exact h2 t (by omega) ht2
      · exact Or.inr ⟨by simp only [iterate, h0, h1], t, by omega, h2.2.1, h2.2.2⟩
    · exact Or.inr ⟨by simp only [iterate, h0], i, Nat.le_refl _, by omega, h0⟩

/-- A loop without state whose iterations either pass or stop with `e0` passes when all
iterations pass and stops with `e0` when one of them does. -/
theorem for_loop_unit (lo hi : Nat) (body : Nat → Unit → Except Stop Unit) (e0 : Stop)
    (hle : lo ≤ hi)
    (hb : ∀ t, lo ≤ t → t < hi → body t () = .ok () ∨ body t () = .error e0) :
    (for_loop lo hi body () = .ok () ∧ ∀ t, lo ≤ t → t < hi → body t () = .ok ()) ∨
    (for_loop lo hi body () = .error e0 ∧ ∃ t, lo ≤ t ∧ t < hi ∧ body t () = .error e0) :=
  iterate_unit body e0 hi (hi - lo) lo (by omega) hb

/-- The comparison passes when all cells agree and otherwise ends the process with
`EXIT_FAILURE`. -/
theorem compare_results_spec (C_seq C_par : List (List Int)) (N P : Nat)
    (h1 : WellFormed C_seq N P) (h2 : WellFormed C_par N P) :
    (compare_results C_seq C_par N P = .ok () ∧
      ∀ i j, i < N → j < P → entry C_seq i j = entry C_par i j) ∨
    (compare_results C_seq C_par N P = .error (.exit EXIT_FAILURE) ∧
      ∃ i j, i < N ∧ j < P ∧ entry C_seq i j ≠ entry C_par i j) := by
  have hcell : ∀ i j, i < N → j < P →
      (read2 C_seq i j >>= fun x => read2 C_par i j >>= fun y =>
        if x ≠ y then (Except.error (Stop.exit EXIT_FAILURE) : Except Stop Unit) else Except.ok ())
      = if entry C_seq i j ≠ entry C_par i j then .error (.exit EXIT_FAILURE) else .ok () := by
    intro i j hi hj
    rw [read2_ok h1 hi hj, ok_bind, read2_ok h2 hi hj, ok_bind]
  have hrow : ∀ i, i < N →
      (for_loop 0 P (fun j u =>
        read2 C_seq i j >>= fun x => read2 C_par i j >>= fun y =>
          if x ≠ y then (Except.error (Stop.exit EXIT_FAILURE) : Except Stop Unit)
          else Except.ok u) () = .ok () ∧
        ∀ j, j < P → entry C_seq i j = entry C_par i j) ∨
      (for_loop 0 P (fun j u =>
        read2 C_seq i j >>= fun x => read2 C_par i j >>= fun y =>
          if x ≠ y then (Except.error (Stop.exit EXIT_FAILURE) : Except Stop Unit)
          else Except.ok u) () = .error (.exit EXIT_FAILURE) ∧
        ∃ j, j < P ∧ entry C_seq i j ≠ entry C_par i j) := by
    intro i hi
    rcases for_loop_unit 0 P (fun j u =>
        read2 C_seq i j >>= fun x => read2 C_par i j >>= fun y =>
          if x ≠ y then (Except.error (Stop.exit EXIT_FAILURE) : Except Stop Unit)
          else Except.ok u) (.exit EXIT_FAILURE) (Nat.zero_le _)
      (fun j h0 hj => by
        beta_reduce
        rw [hcell i j hi hj]
        by_cases hne : entry C_seq i j ≠ entry C_par i j
        · right; rw [if_pos hne]
        · left; rw [if_neg hne]) with ⟨hok, hall⟩ | ⟨herr, j, _, hj, hbad⟩
    · refine Or.inl ⟨hok, fun j hj => ?_⟩
      have := hall j (Nat.zero_le _) hj
      beta_reduce at this
      rw [hcell i j hi hj] at this
      by_contra hne
      rw [if_pos hne] at this
      cases this
    · refine Or.inr ⟨herr, j, hj, ?_⟩
      rw [hcell i j hi hj] at hbad
      intro heq
      rw [if_neg (not_not.2 heq)] at hbad
      cases hbad
  rcases for_loop_unit 0 N (fun i u => for_loop 0 P (fun j u =>
        read2 C_seq i j >>= fun x => read2 C_par i j >>= fun y =>
          if x ≠ y then (Except.error (Stop.exit EXIT_FAILURE) : Except Stop Unit)
          else Except.ok u) u) (.exit EXIT_FAILURE) (Nat.zero_le _)
      (fun i _ hi => by
        rcases hrow i hi with h | h
        · exact Or.inl h.1
        · exact Or.inr h.1) with ⟨hok, hall⟩ | ⟨herr, i, _, hi, hbad⟩
  · refine Or.inl ⟨hok, fun i j hi hj => ?_⟩
    rcases hrow i hi with h | h
    · exact h.2 j hj
    · have := hall i (Nat.zero_le _) hi
      rw [h.1] at this
      cases this
  · refine Or.inr ⟨herr, i, ?_⟩
    rcases hrow i hi with h | h
    · rw [h.1] at hbad
      cases hbad
    · obtain ⟨j, hj, hne⟩ := h.2
      exact ⟨j, hi, hj, hne⟩

/-! ## The parallel phase under any behaviour of the operating system -/

theorem sum_row_lengths (N W : Nat) (hW : 1 ≤ W) :
    ∑ pid in Finset.range W, ((end_row pid N W : Int) - (start_row pid N W : Int)) = N := by
  obtain ⟨n, rfl⟩ : ∃ n, W = n + 1 := ⟨W - 1, by omega⟩
  rw [Finset.sum_range_succ]
  have hhead : ∑ pid in Finset.range n,
      ((end_row pid N (n + 1) : Int) - (start_row pid N (n + 1) : Int))
      = ∑ pid in Finset.range n,
        ((((pid + 1 : Nat) * (N / (n + 1)) : Nat) : Int) - ((pid * (N / (n + 1)) : Nat) : Int)) := by
    apply Finset.sum_congr rfl
    intro pid hpid
    rw [end_row_inner pid N (n + 1) (by have := Finset.mem_range.1 hpid; omega)]
    rfl
  rw [hhead, Finset.sum_range_sub (fun pid => ((pid * (N / (n + 1)) : Nat) : Int))]
  have hlast := end_row_last N (n + 1) (by omega)
  simp only [Nat.add_sub_cancel] at hlast
  rw [hlast]
  simp [start_row]

/-! # The claims -/

/-- C2: on well-formed inputs `sequential_matrix_multiply` returns a matrix with `N` rows
of `P` cells whose cell `(i, j)` is the 32-bit accumulation of the products
`A[i][k] * B[k][j]`, which is the exact sum of the products reduced to 32 bits; with
`M = 0` every cell is 0. -/
theorem sequential_correct (A B : List (List Int)) (N M P : Nat)
    (hA : WellFormed A N M) (hB : WellFormed B M P) :
    ∃ C, sequential_matrix_multiply A B N M P = .ok C ∧ WellFormed C N P ∧
      (∀ i j, i < N → j < P → read2 C i j = .ok (dot_upto A B i j M)) ∧
      (∀ i j, i < N → j < P → read2 C i j = .ok (wrap32 (exact_dot A B M i j))) ∧
      (M = 0 → ∀ i j, i < N → j < P → read2 C i j = .ok 0) := by
  have hwf := tabulate_wf N P (fun i j => dot_upto A B i j M)
  have hread : ∀ i j, i < N → j < P →
      read2 (tabulate N P (fun i j => dot_upto A B i j M)) i j = .ok (dot_upto A B i j M) := by
    intro i j hi hj
    rw [read2_ok hwf hi hj, entry_tabulate N P _ hi hj]
  refine ⟨_, sequential_spec A B N M P hA hB, hwf, hread, ?_, ?_⟩
  · intro i j hi hj
    rw [hread i j hi hj, dot_upto_eq]
  · intro hM i j hi hj
    subst hM
    rw [hread i j hi hj]
    rfl

/-- Witness for C2: `[[1,2],[3,4]] * [[5,6],[7,8]] = [[19,22],[43,50]]`. -/
theorem sequential_correct_witness :
    sequential_matrix_multiply [[1, 2], [3, 4]] [[5, 6], [7, 8]] 2 2 2
      = .ok [[19, 22], [43, 50]] ∧
    ∃ C, sequential_matrix_multiply [[1, 2], [3, 4]] [[5, 6], [7, 8]] 2 2 2 = .ok C ∧
      WellFormed C 2 2 ∧
      (∀ i j, i < 2 → j < 2 →
        read2 C i j = .ok (dot_upto [[1, 2], [3, 4]] [[5, 6], [7, 8]] i j 2)) ∧
      (∀ i j, i < 2 → j < 2 →
        read2 C i j = .ok (wrap32 (exact_dot [[1, 2], [3, 4]] [[5, 6], [7, 8]] 2 i j))) ∧
      ((2 : Nat) = 0 → ∀ i j, i < 2 → j < 2 → read2 C i j = .ok 0) :=
  ⟨rfl, sequential_correct [[1, 2], [3, 4]] [[5, 6], [7, 8]] 2 2 2 (by decide) (by decide)⟩

/-- C3: for `W >= 1` the row ranges `[start_row, end_row)` of workers `0 .. W-1` partition
`[0, N)`: no range has negative length, the first starts at 0, the last ends at `N`, each
range ends where the next starts, no row lies in two ranges, every row below `N` lies in
one, no range reaches beyond `N`, and the lengths add up to `N`. -/
theorem row_ranges_partition (N W : Nat) (hW : 1 ≤ W) :
    (∀ pid, pid < W → start_row pid N W ≤ end_row pid N W) ∧
    start_row 0 N W = 0 ∧
    end_row (W - 1) N W = N ∧
    (∀ pid, pid + 1 < W → end_row pid N W = start_row (pid + 1) N W) ∧
    (∀ p q i, p < W → q < W → p ≠ q →
      ¬ ((start_row p N W ≤ i ∧ i < end_row p N W) ∧
         (start_row q N W ≤ i ∧ i < end_row q N W))) ∧
    (∀ i, i < N → ∃ pid, pid < W ∧ start_row pid N W ≤ i ∧ i < end_row pid N W) ∧
    (∀ pid, pid < W → end_row pid N W ≤ N) ∧
    ∑ pid in Finset.range W, ((end_row pid N W : Int) - (start_row pid N W : Int)) = N := by
  refine ⟨fun pid h => start_row_le_end_row pid N W h, by simp [start_row],
    end_row_last N W (by omega), fun pid h => end_row_eq_start_row_succ pid N W h, ?_,
    fun i hi => row_has_owner N W i (by omega) hi, fun pid h => end_row_le pid N W h,
    sum_row_lengths N W hW⟩
  rintro p q i hp hq hne ⟨⟨h1, h2⟩, h3, h4⟩
  exact hne (row_owner_unique N W p q i hp hq h1 h2 h3 h4)

/-- Witness for C3: five rows and three workers. -/
theorem row_ranges_partition_witness :
    (1 ≤ 3) ∧
    ((∀ pid, pid < 3 → start_row pid 5 3 ≤ end_row pid 5 3) ∧
    start_row 0 5 3 = 0 ∧
    end_row (3 - 1) 5 3 = 5 ∧
    (∀ pid, pid + 1 < 3 → end_row pid 5 3 = start_row (pid + 1) 5 3) ∧
    (∀ p q i, p < 3 → q < 3 → p ≠ q →
      ¬ ((start_row p 5 3 ≤ i ∧ i < end_row p 5 3) ∧
         (start_row q 5 3 ≤ i ∧ i < end_row q 5 3))) ∧
    (∀ i, i < 5 → ∃ pid, pid < 3 ∧ start_row pid 5 3 ≤ i ∧ i < end_row pid 5 3) ∧
    (∀ pid, pid < 3 → end_row pid 5 3 ≤ 5) ∧
    ∑ pid in Finset.range 3, ((end_row pid 5 3 : Int) - (start_row pid 5 3 : Int)) = (5 : Nat)) :=
  ⟨by decide, row_ranges_partition 5 3 (by decide)⟩

/-- C4: with `chunk = N / W`, every worker `pid` before the last has the rows
`[pid * chunk, (pid + 1) * chunk)`, which are `chunk` rows, and the last worker has
`[(W - 1) * chunk, N)`, which are `chunk + N mod W` rows. -/
theorem row_range_values (N W : Nat) (hW : 1 ≤ W) :
    (∀ pid, pid + 1 < W →
      start_row pid N W = pid * (N / W) ∧ end_row pid N W = (pid + 1) * (N / W) ∧
      end_row pid N W = start_row pid N W + N / W) ∧
    start_row (W - 1) N W = (W - 1) * (N / W) ∧
    end_row (W - 1) N W = N ∧
    end_row (W - 1) N W = start_row (W - 1) N W + (N / W + N % W) := by
  refine ⟨fun pid h => ⟨rfl, end_row_inner pid N W h, ?_⟩, rfl, end_row_last N W (by omega), ?_⟩
  · rw [end_row_inner pid N W h, start_row, Nat.add_mul, Nat.one_mul]
  · rw [end_row_last N W (by omega), start_row]
    have h1 := Nat.div_add_mod N W
    have h2 : W * (N / W) = (W - 1) * (N / W) + N / W := by
      have : W = (W - 1) + 1 := by omega
      nth_rewrite 1 [this]
      rw [Nat.add_mul, Nat.one_mul]
    omega

/-- Witness for C4: `N = 5`, `W = 3` gives the ranges `[0,1)`, `[1,2)`, `[2,5)`. -/
theorem row_range_values_witness :
    (start_row 0 5 3 = 0 ∧ end_row 0 5 3 = 1) ∧ (start_row 1 5 3 = 1 ∧ end_row 1 5 3 = 2) ∧
    (start_row 2 5 3 = 2 ∧ end_row 2 5 3 = 5) ∧
    ((∀ pid, pid + 1 < 3 →
      start_row pid 5 3 = pid * (5 / 3) ∧ end_row pid 5 3 = (pid + 1) * (5 / 3) ∧
      end_row pid 5 3 = start_row pid 5 3 + 5 / 3) ∧
    start_row (3 - 1) 5 3 = (3 - 1) * (5 / 3) ∧
    end_row (3 - 1) 5 3 = 5 ∧
    end_row (3 - 1) 5 3 = start_row (3 - 1) 5 3 + (5 / 3 + 5 % 3)) :=
  ⟨by decide, by decide, by decide, row_range_values 5 3 (by decide)⟩

/-- Counterexample to C6 as stated: the two results agree in every cell, but `C.txt`
cannot be opened for writing; the run ends with `EXIT_FAILURE` and writes nothing. -/
theorem verify_unwritable_output :
    WellFormed [[1]] 1 1 ∧ entry [[1]] 0 0 = entry [[1]] 0 0 ∧
    main_after_multiply false [[1]] [[1]] 1 1 = ⟨.exit EXIT_FAILURE, []⟩ ∧
    EXIT_FAILURE ≠ 0 := by
  decide

/-- C6 (amended): for two well-formed `N x P` results reaching the comparison, if some cell
differs the run prints the mismatch error, ends with `EXIT_FAILURE` (nonzero) and writes no
file; if no cell differs and `C.txt` can be opened for writing, the run writes the
sequential result (`N` rows, `P` columns) to `C.txt` and ends with status 0; if no cell
differs and `C.txt` cannot be opened, the run ends with `EXIT_FAILURE` and writes nothing. -/
theorem verify_and_write (output_ok : Bool) (C_seq C_par : List (List Int)) (N P : Nat)
    (h1 : WellFormed C_seq N P) (h2 : WellFormed C_par N P) :
    ((∃ i j, i < N ∧ j < P ∧ entry C_seq i j ≠ entry C_par i j) →
      main_after_multiply output_ok C_seq C_par N P
        = ⟨.exit EXIT_FAILURE, [.mismatch_error]⟩) ∧
    ((∀ i j, i < N → j < P → entry C_seq i j = entry C_par i j) → output_ok = true →
      main_after_multiply output_ok C_seq C_par N P
        = ⟨.exit EXIT_SUCCESS, [.wrote_C_txt N P C_seq, .timing_report]⟩) ∧
    ((∀ i j, i < N → j < P → entry C_seq i j = entry C_par i j) → output_ok = false →
      main_after_multiply output_ok C_seq C_par N P = ⟨.exit EXIT_FAILURE, []⟩) ∧
    EXIT_FAILURE ≠ 0 ∧ EXIT_SUCCESS = 0 := by
  refine ⟨?_, ?_, ?_, by decide, rfl⟩
  · rintro ⟨i, j, hi, hj, hne⟩
    rcases compare_results_spec C_seq C_par N P h1 h2 with ⟨_, hall⟩ | ⟨herr, _⟩
    · exact (hne (hall i j hi hj)).elim
    · simp only [main_after_multiply, herr]
  · intro hall hok
    rcases compare_results_spec C_seq C_par N P h1 h2 with ⟨hcmp, _⟩ | ⟨_, i, j, hi, hj, hne⟩
    · subst hok
      simp only [main_after_multiply, hcmp, write_matrix_spec C_seq N P h1]
    · exact (hne (hall i j hi hj)).elim
  · intro hall hok
    rcases compare_results_spec C_seq C_par N P h1 h2 with ⟨hcmp, _⟩ | ⟨_, i, j, hi, hj, hne⟩
    · subst hok
      simp [main_after_multiply, hcmp, write_matrix_to_file]
    · exact (hne (hall i j hi hj)).elim

/-- Witness for C6 (amended): a 1 x 2 result compared with itself and with another one. -/
theorem verify_and_write_witness :
    WellFormed [[19, 22]] 1 2 ∧ WellFormed [[19, 0]] 1 2 ∧
    main_after_multiply true [[19, 22]] [[19, 0]] 1 2
      = ⟨.exit EXIT_FAILURE, [.mismatch_error]⟩ ∧
    main_after_multiply true [[19, 22]] [[19, 22]] 1 2
      = ⟨.exit EXIT_SUCCESS, [.wrote_C_txt 1 2 [[19, 22]], .timing_report]⟩ :=
  ⟨by decide, by decide,
    (verify_and_write true [[19, 22]] [[19, 0]] 1 2 (by decide) (by decide)).1
      ⟨0, 1, by decide, by decide, by decide⟩,
    (verify_and_write true [[19, 22]] [[19, 22]] 1 2 (by decide) (by decide)).2.1
      (fun _ _ _ _ => rfl) rfl⟩

/-- C7: when both input files are read and the column count of `A` differs from the row
count of `B`, `main` prints the dimension error and ends with `EXIT_FAILURE` (nonzero);
neither engine has been called and no file has been written. -/
theorem dimension_mismatch_exit (num_processes : Int) (w : World) (fa fb : MatrixFile)
    (hA : w.file_A = some fa) (hB : w.file_B = some fb) (hdim : fa.cols ≠ fb.rows) :
    main 4 num_processes w = ⟨.exit EXIT_FAILURE, [.dimension_error]⟩ ∧ EXIT_FAILURE ≠ 0 := by
  refine ⟨?_, by decide⟩
  simp only [main, hA, hB, read_matrix_spec, ne_eq, not_true_eq_false, if_false, hdim,
    not_false_eq_true, if_true]

/-- Witness for C7: `A` is 2 x 3 and `B` is 2 x 2. -/
theorem dimension_mismatch_exit_witness :
    main 4 2 ⟨some ⟨2, 3, [1, 2, 3, 4, 5, 6]⟩, some ⟨2, 2, [1, 2, 3, 4]⟩,
        ⟨fun _ => true, true, fun _ => true, [0, 1]⟩, true⟩
      = ⟨.exit EXIT_FAILURE, [.dimension_error]⟩ ∧ EXIT_FAILURE ≠ 0 :=
  dimension_mismatch_exit 2 ⟨some ⟨2, 3, [1, 2, 3, 4, 5, 6]⟩, some ⟨2, 2, [1, 2, 3, 4]⟩,
        ⟨fun _ => true, true, fun _ => true, [0, 1]⟩, true⟩ ⟨2, 3, [1, 2, 3, 4, 5, 6]⟩ ⟨2, 2, [1, 2, 3, 4]⟩
    rfl rfl (by decide)

/-- Counterexample to C8 as stated: with one row and two workers, worker 1 is beyond the
row count (`N <= 1 <= W - 1`), yet its range is `[0, 1)` and it stores to cell 0. -/
theorem last_excess_worker_has_rows :
    (1 < 2 ∧ 1 ≤ 1 ∧ 1 ≤ 2 - 1) ∧
    start_row 1 1 2 = 0 ∧ end_row 1 1 2 = 1 ∧ start_row 1 1 2 ≠ end_row 1 1 2 ∧
    worker 1 1 1 1 2 [2] [3] ⟨[0], []⟩ = .ok ⟨[6], [(1, 0), (1, 0)]⟩ :=
  ⟨by decide, by decide, by decide, by decide, rfl⟩

/-- C8 (amended): when `W > N`, every worker except the last one (in particular every
worker `pid` with `N <= pid < W - 1`) has the empty range `[0, 0)`, returns without
error and leaves the segment and its log of stores untouched; the last worker `W - 1`
has the range `[0, N)`. -/
theorem excess_workers_empty (N W : Nat) (hW : N < W) :
    (∀ pid, pid + 1 < W →
      start_row pid N W = 0 ∧ end_row pid N W = 0 ∧
      ∀ (M P : Nat) (flat_A flat_B : List Int) (shm : Shm),
        worker pid N M P W flat_A flat_B shm = .ok shm) ∧
    start_row (W - 1) N W = 0 ∧ end_row (W - 1) N W = N := by
  have hq : N / W = 0 := Nat.div_eq_of_lt hW
  have hs : ∀ pid, start_row pid N W = 0 := by
    intro pid; simp [start_row, hq]
  refine ⟨fun pid h => ?_, hs _, end_row_last N W (by omega)⟩
  have he : end_row pid N W = 0 := by
    rw [end_row_inner pid N W h, hq, Nat.mul_zero]
  refine ⟨hs pid, he, fun M P flat_A flat_B shm => ?_⟩
  unfold worker
  rw [if_neg (by omega)]
  exact for_loop_empty _ _ _ _ (by rw [hs pid, he])

/-- Witness for C8 (amended): two rows and five workers. -/
theorem excess_workers_empty_witness :
    (2 < 5) ∧
    ((∀ pid, pid + 1 < 5 →
      start_row pid 2 5 = 0 ∧ end_row pid 2 5 = 0 ∧
      ∀ (M P : Nat) (flat_A flat_B : List Int) (shm : Shm),
        worker pid 2 M P 5 flat_A flat_B shm = .ok shm) ∧
    start_row (5 - 1) 2 5 = 0 ∧ end_row (5 - 1) 2 5 = 2) :=
  ⟨by decide, excess_workers_empty 2 5 (by decide)⟩

/-- C9 (code at the failing input): one worker whose `fork` fails.  No child computes the
product, yet `parallel_matrix_multiply` returns the zero-filled segment `[[0]]` to its
caller where the product is `[[1]]`; `main` goes on to the comparison, and on the inputs
`[[0]]`, `[[1]]`, whose product is `[[0]]`, it even ends with status 0 and writes `C.txt`. -/
theorem fork_failure_returns :
    parallel_matrix_multiply ⟨fun _ => true, true, fun _ => false, [0]⟩ [[1]] [[1]] 1 1 1 1 = .ok [[0]] ∧
    sequential_matrix_multiply [[1]] [[1]] 1 1 1 = .ok [[1]] ∧
    main 4 1 ⟨some ⟨1, 1, [1]⟩, some ⟨1, 1, [1]⟩, ⟨fun _ => true, true, fun _ => false, [0]⟩, true⟩
      = ⟨.exit EXIT_FAILURE, [.called_sequential, .called_parallel, .mismatch_error]⟩ ∧
    main 4 1 ⟨some ⟨1, 1, [0]⟩, some ⟨1, 1, [1]⟩, ⟨fun _ => true, true, fun _ => false, [0]⟩, true⟩
      = ⟨.exit EXIT_SUCCESS,
          [.called_sequential, .called_parallel, .wrote_C_txt 1 1 [[0]], .timing_report]⟩ :=
  ⟨rfl, rfl, by decide, by decide⟩

end MatrixMul
